import Mathlib

/-!
Verification of the vscavator-fetch incremental harvester.

This file embeds, in Lean, the pure decision logic of the harvester:
pagination arithmetic (`fetch_extensions.py`), the incremental release
resolver (`vscavator.py` / `db.py`), release deduplication
(`fetch_releases.py`), the archival uploader's skip/retry policy (`s3.py` /
`db.py`), the object-key parsing and consistency check (`validate_data.py` /
`df.py`), the statistics allowlist extraction (`fetch_extensions.py`), and
the batched upsert loops (`fetch_releases.py` / `fetch_extensions.py`).

Network, database and object-store effects are represented explicitly:
an HTTP fetch is a function returning `Option` (a `none` result models a
non-200 response), database tables are association lists, and traces of
network calls are returned as lists so that "no call is issued" claims can
be stated.  Timestamps and other payload fields that the code merely copies
are kept as strings.
-/

/-- `fetch_extensions.py`, `calculate_number_of_extension_pages`:
`num_extensions // extensions_page_size + 1` (Python floor division on
non-negative ints is `Nat` division). -/
def calculate_number_of_extension_pages (num_extensions extensions_page_size : Nat) : Nat :=
  num_extensions / extensions_page_size + 1

/-- One row of the freshly fetched `extensions_df`, restricted to the columns
the release resolver in `vscavator.py` reads. -/
structure ExtRow where
  extension_id : String
  extension_identifier : String
  latest_release_version : String
deriving DecidableEq, Repr

/-- `db.py`, `get_old_latest_release_version`: query the `extensions` table by
`extension_identifier` and return the first matching row's
`latest_release_version` (`cursor.fetchone`), or `""` when no row matches.
The table is modelled as an association list of
(extension_identifier, latest_release_version) rows. -/
def get_old_latest_release_version (extensionsTable : List (String × String))
    (extension_identifier : String) : String :=
  match extensionsTable.find? (fun row => row.1 == extension_identifier) with
  | some row => row.2
  | none => ""

/-- `vscavator.py`, `get_new_latest_release_version`: select the
`latest_release_version` column of the rows of `extensions_df` whose
`extension_identifier` matches, and return the last entry (`iloc[-1]`),
or `""` when the selection is empty. -/
def get_new_latest_release_version (extensions_df : List ExtRow)
    (extension_identifier : String) : String :=
  match (extensions_df.filter
      (fun row => row.extension_identifier == extension_identifier)).getLast? with
  | some row => row.latest_release_version
  | none => ""

/-- `vscavator.py`, `get_all_releases`, restricted to its selection logic:
walk `extensions_df` in order and, for each row, issue a releases fetch
exactly when the persisted latest version differs from the freshly observed
one; the returned list records, in order, the (extension_id,
extension_identifier) pairs for which a fetch was issued. -/
def get_all_releases_fetched (extensionsTable : List (String × String))
    (extensions_df : List ExtRow) : List (String × String) :=
  extensions_df.foldl
    (fun acc row =>
      if get_old_latest_release_version extensionsTable row.extension_identifier
          = get_new_latest_release_version extensions_df row.extension_identifier
      then acc
      else acc ++ [(row.extension_id, row.extension_identifier)])
    []

/-- One raw release entry of the upstream `versions[]` payload, restricted to
the fields `extract_release_metadata` reads.  The `lastUpdated` timestamp is
kept as its (ISO-8601) string. -/
structure RawRelease where
  version : String
  flags : String
  lastUpdated : String
deriving DecidableEq, Repr

/-- One output record of `extract_release_metadata` (`fetch_releases.py`). -/
structure ReleaseRecord where
  release_id : String
  version : String
  flags : String
  last_updated : String
  extension_id : String
deriving DecidableEq, Repr

/-- The record `fetch_releases.py`'s `extract_release_metadata` appends for a
raw entry of extension `extension_id`: the synthetic id is
`extension_id + "-" + version`. -/
def mk_release_record (extension_id : String) (r : RawRelease) : ReleaseRecord :=
  { release_id := extension_id ++ "-" ++ r.version
    version := r.version
    flags := r.flags
    last_updated := r.lastUpdated
    extension_id := extension_id }

/-- Inner loop of `extract_release_metadata`: walk one extension's raw release
list threading the `release_ids` seen-set and the accumulated output. -/
def extract_release_inner (extension_id : String) :
    List String × List ReleaseRecord → List RawRelease → List String × List ReleaseRecord
  | state, [] => state
  | state, raw :: rest =>
    let record := mk_release_record extension_id raw
    if record.release_id ∈ state.1 then
      extract_release_inner extension_id state rest
    else
      extract_release_inner extension_id
        (state.1 ++ [record.release_id], state.2 ++ [record]) rest

/-- Outer loop of `extract_release_metadata`: walk the `releases` dict (an
association list of extension_id ↦ raw release list, in insertion order),
threading the same seen-set and output across extensions. -/
def extract_release_outer :
    List String × List ReleaseRecord → List (String × List RawRelease) → List ReleaseRecord
  | state, [] => state.2
  | state, (extension_id, rels) :: rest =>
    extract_release_outer (extract_release_inner extension_id state rels) rest

/-- `fetch_releases.py`, `extract_release_metadata`: deduplicate the raw
release stream by synthetic `release_id`, first occurrence wins. -/
def extract_release_metadata (releases : List (String × List RawRelease)) : List ReleaseRecord :=
  extract_release_outer ([], []) releases

/-- The flattened stream of records the extractor's nested loops visit, in
visit order, before deduplication. -/
def raw_release_records (releases : List (String × List RawRelease)) : List ReleaseRecord :=
  releases.flatMap (fun kv => kv.2.map (mk_release_record kv.1))

/-- The extractor's dedup loop on the flattened record stream: used to relate
the nested loops of `extract_release_metadata` to `raw_release_records`. -/
def dedup_go : List String × List ReleaseRecord → List ReleaseRecord → List String × List ReleaseRecord
  | state, [] => state
  | state, record :: rest =>
    if record.release_id ∈ state.1 then dedup_go state rest
    else dedup_go (state.1 ++ [record.release_id], state.2 ++ [record]) rest

/-- Result of the crawl loop in `vscavator.py` / `fetch_extensions.py`
`get_all_extensions`: the accumulated extension records together with the
trace of page numbers for which a page request was issued. -/
structure CrawlResult (α : Type) where
  all_extensions : List α
  requested_pages : List Nat
deriving DecidableEq, Repr

/-- `fetch_extensions.py`, `get_extensions`: issue one page request; a 200
response (`fetch page_number = some exts`) yields the page's extension list,
a non-200 response (`none`) is logged and yields `[]`. -/
def get_extensions_result {α : Type} (fetch : Nat → Option (List α)) (page_number : Nat) :
    List α :=
  match fetch page_number with
  | some exts => exts
  | none => []

/-- `fetch_extensions.py`, `get_all_extensions`: request pages
`1 .. last_page_number` in order, extending `all_extensions` with each page's
result; the trace records every issued page request. -/
def get_all_extensions {α : Type} (fetch : Nat → Option (List α)) (last_page_number : Nat) :
    CrawlResult α :=
  (List.range' 1 last_page_number).foldl
    (fun st page_number =>
      { all_extensions := st.all_extensions ++ get_extensions_result fetch page_number
        requested_pages := st.requested_pages ++ [page_number] })
    { all_extensions := [], requested_pages := [] }

/-- One row of the joined publishers/extensions/releases dataframe driving the
archival uploader (`s3.py`, `upload_all_extensions_to_s3`). -/
structure UploadRow where
  extension_id : String
  publisher_name : String
  extension_name : String
  version : String
deriving DecidableEq, Repr

/-- A network call the uploader can make: the marketplace `vspackage`
download GET, or the object-store upload, each for a given row. -/
inductive NetCall where
  | download (row : UploadRow)
  | upload (row : UploadRow)
deriving DecidableEq, Repr

/-- The row a network call pertains to. -/
def NetCall.row : NetCall → UploadRow
  | .download r => r
  | .upload r => r

/-- The `releases` table restricted to its `uploaded_to_s3` flag: the set of
(extension_id, version) pairs whose persisted flag is true. -/
abbrev ReleasesDb := List (String × String)

/-- `db.py`, `is_uploaded_to_s3`: query the `releases` table for the pair and
return the persisted flag; an absent row yields `False`. -/
def is_uploaded_to_s3 (db : ReleasesDb) (extension_id extension_version : String) : Bool :=
  decide ((extension_id, extension_version) ∈ db)

/-- `s3.py`, `upload_extension_to_s3`, on success: the
`UPDATE releases SET uploaded_to_s3 = TRUE` statement for the pair. -/
def set_uploaded_to_s3 (db : ReleasesDb) (extension_id extension_version : String) : ReleasesDb :=
  db ++ [(extension_id, extension_version)]

/-- Outcome of one `upload_extension_to_s3` attempt (`s3.py`): the returned
success flag, the database after the attempt, and the network calls made.
`download_ok` abstracts the marketplace download: `true` is a 200 response,
in which case the object-store upload is performed and the flag persisted;
`false` is a failed download, after which nothing else happens. -/
structure AttemptOutcome where
  success : Bool
  db : ReleasesDb
  calls : List NetCall
deriving Repr

/-- `s3.py`, `upload_extension_to_s3`. -/
def upload_extension_to_s3 (download_ok : UploadRow → Bool) (db : ReleasesDb)
    (row : UploadRow) : AttemptOutcome :=
  if download_ok row then
    { success := true
      db := set_uploaded_to_s3 db row.extension_id row.version
      calls := [NetCall.download row, NetCall.upload row] }
  else
    { success := false, db := db, calls := [NetCall.download row] }

/-- State threaded through the first pass of `upload_all_extensions_to_s3`
(`s3.py`): the `unique_extensions` seen-set, the database, the network-call
trace, and the `failed_extensions` list. -/
structure UploadPassState where
  unique_extensions : List String
  db : ReleasesDb
  calls : List NetCall
  failed_extensions : List UploadRow
deriving Repr

/-- First pass of `s3.py` `upload_all_extensions_to_s3`: deduplicate rows by
`extension_id` (first row per extension wins), skip rows whose persisted
`uploaded_to_s3` flag is already true, attempt the rest, and record failed
attempts in `failed_extensions`. -/
def upload_first_pass (download_ok : UploadRow → Bool) :
    UploadPassState → List UploadRow → UploadPassState
  | st, [] => st
  | st, row :: rest =>
    if row.extension_id ∈ st.unique_extensions then
      upload_first_pass download_ok st rest
    else
      let seen := st.unique_extensions ++ [row.extension_id]
      if is_uploaded_to_s3 st.db row.extension_id row.version then
        upload_first_pass download_ok { st with unique_extensions := seen } rest
      else
        let oc := upload_extension_to_s3 download_ok st.db row
        upload_first_pass download_ok
          { unique_extensions := seen
            db := oc.db
            calls := st.calls ++ oc.calls
            failed_extensions :=
              st.failed_extensions ++ (if oc.success then [] else [row]) }
          rest

/-- The successor state of the first pass when `row` is attempted. -/
def upload_step_state (download_ok : UploadRow → Bool) (st : UploadPassState)
    (row : UploadRow) : UploadPassState :=
  { unique_extensions := st.unique_extensions ++ [row.extension_id]
    db := (upload_extension_to_s3 download_ok st.db row).db
    calls := st.calls ++ (upload_extension_to_s3 download_ok st.db row).calls
    failed_extensions := st.failed_extensions ++
      (if (upload_extension_to_s3 download_ok st.db row).success then [] else [row]) }

/-- Retry pass of `s3.py` `upload_all_extensions_to_s3`: every failed row is
attempted exactly once more; a second failure is only logged. -/
def upload_retry_pass (download_ok : UploadRow → Bool) :
    ReleasesDb × List NetCall → List UploadRow → ReleasesDb × List NetCall
  | st, [] => st
  | (db, calls), row :: rest =>
    let oc := upload_extension_to_s3 download_ok db row
    upload_retry_pass download_ok (oc.db, calls ++ oc.calls) rest

/-- `s3.py`, `upload_all_extensions_to_s3`: the full two-pass run, returning
the final `releases` flags and the complete network-call trace. -/
def upload_all_extensions_to_s3 (download_ok : UploadRow → Bool) (db : ReleasesDb)
    (combined_df : List UploadRow) : ReleasesDb × List NetCall :=
  let st := upload_first_pass download_ok
    { unique_extensions := [], db := db, calls := [], failed_extensions := [] } combined_df
  upload_retry_pass download_ok (st.db, st.calls) st.failed_extensions
/-- Python strings are modelled as character lists where the code inspects
their contents (object-key parsing in `df.py` / `validate_data.py`). -/
abbrev PyStr := List Char

/-- Python `str.split(sep)` for a one-character separator: `""` splits to
`[""]`, and every separator occurrence starts a new field. -/
def split_on_char (sep : Char) : PyStr → List PyStr
  | [] => [[]]
  | c :: cs =>
    let r := split_on_char sep cs
    if c = sep then [] :: r else (c :: r.headI) :: r.tail

/-- Python `str.replace(pat, "")` (left-to-right, non-overlapping), as a
skip-counter recursion: while `skip > 0` the current character belongs to an
occurrence being deleted; at `skip = 0` a fresh occurrence of the (non-empty)
pattern starts a new deletion, any other character is kept. -/
def replace_del_go (pat : PyStr) : PyStr → Nat → PyStr
  | [], _ => []
  | _ :: cs, skip + 1 => replace_del_go pat cs skip
  | c :: cs, 0 =>
    if pat ≠ [] ∧ pat.isPrefixOf (c :: cs) then replace_del_go pat cs (pat.length - 1)
    else c :: replace_del_go pat cs 0

/-- Python `s.replace(pat, "")`. -/
def replace_del (s pat : PyStr) : PyStr :=
  replace_del_go pat s 0

/-- Whether `pat` occurs as a contiguous substring, as a Boolean scan. -/
def occurs (pat : PyStr) : PyStr → Bool
  | [] => pat.isPrefixOf ([] : PyStr)
  | c :: cs => pat.isPrefixOf (c :: cs) || occurs pat cs

/-- The literal `".vsix"`. -/
def dot_vsix : PyStr := ['.', 'v', 's', 'i', 'x']

/-- The literal `"extensions"`. -/
def extensions_lit : PyStr :=
  ['e', 'x', 't', 'e', 'n', 's', 'i', 'o', 'n', 's']

/-- One parsed row of the object-key dataframe (`df.py`,
`object_keys_to_dataframe`). -/
structure S3KeyRow where
  publisher_name : PyStr
  extension_name : PyStr
  version : PyStr
deriving DecidableEq, Repr

/-- Parsing of one object key (`df.py` / `validate_data.py`,
`object_keys_to_dataframe` body): `fields = key.split("/")`, then
`fields[1]`, `fields[2]`, `fields[3].replace(".vsix", "")`; an index out of
range raises in Python, modelled as `none`. -/
def parse_object_key (object_key : PyStr) : Option S3KeyRow :=
  let fields := split_on_char '/' object_key
  match fields.get? 1, fields.get? 2, fields.get? 3 with
  | some f1, some f2, some f3 =>
    some { publisher_name := f1, extension_name := f2, version := replace_del f3 dot_vsix }
  | _, _, _ => none

/-- `df.py` / `validate_data.py`, `object_keys_to_dataframe`: parse every key
of the listing in order; a malformed key fails the whole call. -/
def object_keys_to_dataframe : List PyStr → Option (List S3KeyRow)
  | [] => some []
  | object_key :: rest =>
    match parse_object_key object_key, object_keys_to_dataframe rest with
    | some row, some rows => some (row :: rows)
    | _, _ => none

/-- `df.py` / `validate_data.py`, `verified_uploaded_to_s3`: the filtered
dataframe is non-empty, i.e. some parsed key row matches all three fields. -/
def verified_uploaded_to_s3 (object_keys_df : List S3KeyRow)
    (publisher_name extension_name version : PyStr) : Bool :=
  object_keys_df.any (fun row =>
    decide (row.publisher_name = publisher_name ∧
      row.extension_name = extension_name ∧ row.version = version))

/-- One row of the joined publishers/extensions/releases dataframe read by the
consistency validator (`validate_data.py`, `validate_data`). -/
structure JoinedRow where
  publisher_name : PyStr
  extension_name : PyStr
  version : PyStr
  uploaded_to_s3 : Bool
deriving DecidableEq, Repr

/-- `validate_data.py`, `validate_data`: parse the object-store listing, then
emit one discrepancy (an error log line) for every joined row whose persisted
`uploaded_to_s3` bit differs from the parsed-key membership test.  The
validator only reads; its output is the emission list. -/
def validate_data (object_keys : List PyStr) (rows : List JoinedRow) :
    Option (List JoinedRow) :=
  match object_keys_to_dataframe object_keys with
  | none => none
  | some object_keys_df =>
    some (rows.filter (fun row =>
      decide (row.uploaded_to_s3 ≠ verified_uploaded_to_s3 object_keys_df
        row.publisher_name row.extension_name row.version)))

/-- `s3.py`, `upload_extension_to_s3`: the object key written on upload,
`f"extensions/.../...vsix"` with the three segments in between. -/
def upload_object_key (publisher_name extension_name version : PyStr) : PyStr :=
  extensions_lit ++ ['/'] ++ publisher_name ++ ['/'] ++ extension_name ++ ['/'] ++
    version ++ dot_vsix
/-- The statistics dict initializer of `fetch_extensions.py`,
`extract_extension_statistics`: the fixed allowlist, every name defaulting
to `0`.  Statistic values are carried opaquely as integers (the code never
computes with them). -/
def extension_stats_init : List (String × Int) :=
  [("install", 0), ("averagerating", 0), ("ratingcount", 0), ("trendingdaily", 0),
   ("trendingmonthly", 0), ("trendingweekly", 0), ("updateCount", 0),
   ("weightedRating", 0), ("downloadCount", 0)]

/-- The key list of a Python dict modelled as an association list. -/
def dict_keys (d : List (String × Int)) : List String :=
  d.map Prod.fst

/-- Python `d[k] = v` for a key already present (assignment overwrites the
entry; key order is unchanged). -/
def dict_set (d : List (String × Int)) (k : String) (v : Int) : List (String × Int) :=
  d.map (fun p => if p.1 = k then (k, v) else p)

/-- Python `d[k]` lookup as an `Option`. -/
def dict_lookup (d : List (String × Int)) (k : String) : Option Int :=
  (d.find? (fun p => p.1 == k)).map Prod.snd

/-- `fetch_extensions.py`, `extract_extension_statistics`: scan the
`{statisticName, value}` list and assign each value whose name is a key of
the dict (`if name in extension_stats`); unrecognized names are dropped. -/
def extract_extension_statistics (statistics : List (String × Int)) : List (String × Int) :=
  statistics.foldl
    (fun d stat => if stat.1 ∈ dict_keys d then dict_set d stat.1 stat.2 else d)
    extension_stats_init

/-- Python `range(start, stop, step)` for a positive step, with enough fuel
(`stop` iterations always suffice when `step ≥ 1`). -/
def range_step_go (step : Nat) : Nat → Nat → Nat → List Nat
  | 0, _, _ => []
  | fuel + 1, start, stop =>
    if start < stop then start :: range_step_go step fuel (start + step) stop else []

/-- Python `range(start, stop, step)` for a positive step. -/
def range_step (start stop step : Nat) : List Nat :=
  range_step_go step stop start stop

/-- `fetch_releases.py`, `upsert_releases` batching loop: the row lists handed
to `upsert_data`, one per loop iteration.  The loop slices
`batch = values[i : i + batch_size]` but passes `values` to `upsert_data`,
so every statement carries the full row list. -/
def upsert_releases_statements {α : Type} (values : List α) (batch_size : Nat) :
    List (List α) :=
  (range_step 0 values.length batch_size).map (fun _ => values)

/-- `fetch_extensions.py`, `upsert_extensions` batching loop: the row lists
handed to `upsert_data`, one per loop iteration (`values[i : i + batch_size]`). -/
def upsert_extensions_statements {α : Type} (values : List α) (batch_size : Nat) :
    List (List α) :=
  (range_step 0 values.length batch_size).map (fun i => (values.drop i).take batch_size)
/-- Outcome of the marketplace download GET and the subsequent object-store
upload for one row, covering the exception paths `s3.py` does not handle:
`ok` — download returns 200 and `upload_fileobj` succeeds; `badStatus` —
download returns a non-200 status (the handled failure: `return False`);
`downloadRaises` — the GET itself raises (timeout, connection error);
`uploadRaises` — download returns 200 but `upload_fileobj` raises. -/
inductive NetOutcome where
  | ok
  | badStatus
  | downloadRaises
  | uploadRaises
deriving DecidableEq, Repr

/-- The run state escaping with an uncaught exception: the database and
network calls at the moment of the raise, and the (lost) local failed list. -/
structure AbortState where
  db : ReleasesDb
  calls : List NetCall
  failed_extensions : List UploadRow
deriving DecidableEq, Repr

/-- `s3.py`, `upload_extension_to_s3`, with fallible download and upload:
a non-200 status returns `False`; a raised download or a raised
`upload_fileobj` is uncaught and escapes (`Except.error` carries the calls
attempted before the raise); only after a successful upload is the
`uploaded_to_s3` flag persisted and `True` returned. -/
def upload_extension_to_s3_exn (net : UploadRow → NetOutcome) (db : ReleasesDb)
    (row : UploadRow) : Except (List NetCall) (Bool × ReleasesDb × List NetCall) :=
  match net row with
  | NetOutcome.badStatus => Except.ok (false, db, [NetCall.download row])
  | NetOutcome.downloadRaises => Except.error [NetCall.download row]
  | NetOutcome.uploadRaises =>
    Except.error [NetCall.download row, NetCall.upload row]
  | NetOutcome.ok =>
    Except.ok (true, set_uploaded_to_s3 db row.extension_id row.version,
      [NetCall.download row, NetCall.upload row])

/-- First pass of `s3.py` `upload_all_extensions_to_s3` with the exception
paths: an attempt that raises aborts the loop — the row is not appended to
`failed_extensions` and the exception propagates with the partial state. -/
def upload_first_pass_exn (net : UploadRow → NetOutcome) :
    UploadPassState → List UploadRow → Except AbortState UploadPassState
  | st, [] => Except.ok st
  | st, row :: rest =>
    if row.extension_id ∈ st.unique_extensions then
      upload_first_pass_exn net st rest
    else
      let seen := st.unique_extensions ++ [row.extension_id]
      if is_uploaded_to_s3 st.db row.extension_id row.version then
        upload_first_pass_exn net { st with unique_extensions := seen } rest
      else
        match upload_extension_to_s3_exn net st.db row with
        | Except.error calls =>
          Except.error
            { db := st.db
              calls := st.calls ++ calls
              failed_extensions := st.failed_extensions }
        | Except.ok (success, db2, calls) =>
          upload_first_pass_exn net
            { unique_extensions := seen
              db := db2
              calls := st.calls ++ calls
              failed_extensions :=
                st.failed_extensions ++ (if success then [] else [row]) }
            rest

/-- Retry pass with the exception paths: each failed row is attempted once
more; a second non-200 is only logged, but a raise again aborts the run. -/
def upload_retry_pass_exn (net : UploadRow → NetOutcome) :
    ReleasesDb × List NetCall → List UploadRow →
      Except AbortState (ReleasesDb × List NetCall)
  | st, [] => Except.ok st
  | (db, calls), row :: rest =>
    match upload_extension_to_s3_exn net db row with
    | Except.error c =>
      Except.error
        { db := db
          calls := calls ++ c
          failed_extensions := [] }
    | Except.ok (_, db2, c) => upload_retry_pass_exn net (db2, calls ++ c) rest

/-- `s3.py`, `upload_all_extensions_to_s3`, with the exception paths: an
uncaught exception in either pass aborts the whole run. -/
def upload_all_extensions_to_s3_exn (net : UploadRow → NetOutcome) (db : ReleasesDb)
    (combined_df : List UploadRow) : Except AbortState (ReleasesDb × List NetCall) :=
  match upload_first_pass_exn net ⟨[], db, [], []⟩ combined_df with
  | Except.error ab => Except.error ab
  | Except.ok st => upload_retry_pass_exn net (st.db, st.calls) st.failed_extensions

/-- Fold characterization of the release resolver: the fetched pairs are
exactly the rows whose persisted and fresh latest versions differ. -/
theorem get_all_releases_fetched_eq (extensionsTable : List (String × String))
    (extensions_df : List ExtRow) :
    get_all_releases_fetched extensionsTable extensions_df =
      (extensions_df.filter (fun row =>
        decide (get_old_latest_release_version extensionsTable row.extension_identifier ≠
          get_new_latest_release_version extensions_df row.extension_identifier))).map
        (fun row => (row.extension_id, row.extension_identifier)) := by
  unfold get_all_releases_fetched
  suffices h : ∀ (l : List ExtRow) (acc : List (String × String)),
      l.foldl
        (fun acc row =>
          if get_old_latest_release_version extensionsTable row.extension_identifier
              = get_new_latest_release_version extensions_df row.extension_identifier
          then acc
          else acc ++ [(row.extension_id, row.extension_identifier)]) acc =
        acc ++ (l.filter (fun row =>
          decide (get_old_latest_release_version extensionsTable row.extension_identifier ≠
            get_new_latest_release_version extensions_df row.extension_identifier))).map
          (fun row => (row.extension_id, row.extension_identifier)) by
    simpa using h extensions_df []
  intro l
  induction l with
  | nil => intro acc; simp
  | cons row rest ih =>
    intro acc
    by_cases hc : get_old_latest_release_version extensionsTable row.extension_identifier
        = get_new_latest_release_version extensions_df row.extension_identifier
    · simp [List.foldl_cons, hc, ih]
    · simp [List.foldl_cons, hc, ih]

/-- C3.  Page-count formula: `calculate_number_of_extension_pages(n, s)` is
`n // s + 1`; in particular `n = 0` gives 1, `n = 100, s = 100` gives 2,
`n = 10, s = 100` gives 1, and `n = 50000, s = 100` gives 501. -/
theorem pages_formula (n s : Nat) :
    calculate_number_of_extension_pages n s = n / s + 1 ∧
    calculate_number_of_extension_pages 0 100 = 1 ∧
    calculate_number_of_extension_pages 100 100 = 2 ∧
    calculate_number_of_extension_pages 10 100 = 1 ∧
    calculate_number_of_extension_pages 50000 100 = 501 :=
  ⟨rfl, rfl, rfl, rfl, rfl⟩

/-- C1.  Incremental release resolution: for a row of the freshly fetched
batch, a releases fetch is issued for it if and only if the persisted
`latest_release_version` for its identifier (`""` when absent) differs from
the freshly observed one; and the resolver is deterministic. -/
theorem releases_fetched_iff_version_changed (extensionsTable : List (String × String))
    (extensions_df : List ExtRow) (row : ExtRow) (hrow : row ∈ extensions_df) :
    ((row.extension_id, row.extension_identifier) ∈
        get_all_releases_fetched extensionsTable extensions_df ↔
      get_old_latest_release_version extensionsTable row.extension_identifier ≠
        get_new_latest_release_version extensions_df row.extension_identifier) ∧
    (∀ table2 df2, table2 = extensionsTable → df2 = extensions_df →
      get_all_releases_fetched table2 df2 =
        get_all_releases_fetched extensionsTable extensions_df) := by
  constructor
  · rw [get_all_releases_fetched_eq]
    constructor
    · intro hmem
      rcases List.mem_map.mp hmem with ⟨row2, hrow2, heq⟩
      rcases List.mem_filter.mp hrow2 with ⟨_, hcond⟩
      have hid : row2.extension_identifier = row.extension_identifier := by
        have := congrArg Prod.snd heq
        simpa using this
      rw [← hid]
      exact of_decide_eq_true hcond
    · intro hne
      exact List.mem_map.mpr ⟨row, List.mem_filter.mpr ⟨hrow, decide_eq_true hne⟩, rfl⟩
  · intro table2 df2 h1 h2
    rw [h1, h2]

/-- Witness for `releases_fetched_iff_version_changed` at a concrete state: a
persisted version `"1.0"` differing from the fresh `"2.0"` selects the row. -/
theorem releases_fetched_iff_version_changed_witness :
    (ExtRow.mk "id1" "pub.ext" "2.0") ∈
        [ExtRow.mk "id1" "pub.ext" "2.0"] ∧
      (("id1", "pub.ext") ∈
        get_all_releases_fetched [("pub.ext", "1.0")] [ExtRow.mk "id1" "pub.ext" "2.0"] ↔
      get_old_latest_release_version [("pub.ext", "1.0")] "pub.ext" ≠
        get_new_latest_release_version [ExtRow.mk "id1" "pub.ext" "2.0"] "pub.ext") :=
  ⟨by decide,
    (releases_fetched_iff_version_changed [("pub.ext", "1.0")]
      [ExtRow.mk "id1" "pub.ext" "2.0"] (ExtRow.mk "id1" "pub.ext" "2.0")
      (by decide)).1⟩
/-- The extractor's inner loop is the dedup loop on the per-extension record
stream. -/
theorem extract_release_inner_eq_dedup_go (extension_id : String)
    (state : List String × List ReleaseRecord) (rels : List RawRelease) :
    extract_release_inner extension_id state rels =
      dedup_go state (rels.map (mk_release_record extension_id)) := by
  induction rels generalizing state with
  | nil => rfl
  | cons raw rest ih =>
    simp only [extract_release_inner, List.map_cons, dedup_go]
    by_cases h : (mk_release_record extension_id raw).release_id ∈ state.1
    · simp [h, ih]
    · simp [h, ih]

/-- The dedup loop processes concatenated streams sequentially. -/
theorem dedup_go_append (state : List String × List ReleaseRecord)
    (l1 l2 : List ReleaseRecord) :
    dedup_go state (l1 ++ l2) = dedup_go (dedup_go state l1) l2 := by
  induction l1 generalizing state with
  | nil => rfl
  | cons record rest ih =>
    simp only [List.cons_append, dedup_go]
    by_cases h : record.release_id ∈ state.1
    · simp [h, ih]
    · simp [h, ih]

/-- The extractor's nested loops equal the dedup loop on the flattened
stream. -/
theorem extract_release_metadata_eq_dedup_go (releases : List (String × List RawRelease)) :
    extract_release_metadata releases =
      (dedup_go ([], []) (raw_release_records releases)).2 := by
  unfold extract_release_metadata raw_release_records
  suffices h : ∀ (rels : List (String × List RawRelease))
      (state : List String × List ReleaseRecord),
      extract_release_outer state rels =
        (dedup_go state (rels.flatMap (fun kv => kv.2.map (mk_release_record kv.1)))).2 by
    exact h releases ([], [])
  intro rels
  induction rels with
  | nil => intro state; rfl
  | cons kv rest ih =>
    intro state
    obtain ⟨extension_id, payload⟩ := kv
    simp only [extract_release_outer, List.flatMap_cons,
      extract_release_inner_eq_dedup_go, dedup_go_append, ih]

/-- Filter characterization of the dedup loop: among equal release ids only
the first record of the stream survives, and only when the id is unseen. -/
theorem dedup_go_filter (id : String) (items : List ReleaseRecord)
    (state : List String × List ReleaseRecord) :
    (dedup_go state items).2.filter (fun r => decide (r.release_id = id)) =
      state.2.filter (fun r => decide (r.release_id = id)) ++
        (if id ∈ state.1 then []
         else (items.filter (fun r => decide (r.release_id = id))).take 1) := by
  induction items generalizing state with
  | nil => simp [dedup_go]
  | cons record rest ih =>
    simp only [dedup_go]
    by_cases hmem : record.release_id ∈ state.1
    · rw [if_pos hmem, ih]
      by_cases hid : record.release_id = id
      · subst hid
        simp [hmem, List.filter_cons]
      · have hpr : (decide (record.release_id = id)) = false := by
          simp [hid]
        simp only [List.filter_cons, hpr]
        rfl
    · rw [if_neg hmem, ih]
      by_cases hid : record.release_id = id
      · subst hid
        have hnotin : record.release_id ∉ state.1 := hmem
        simp [List.filter_append, List.filter_cons, hnotin]
      · have hpr : (decide (record.release_id = id)) = false := by
          simp [hid]
        have hiff : id ∈ state.1 ++ [record.release_id] ↔ id ∈ state.1 := by
          simp [List.mem_append, Ne.symm hid]
        simp only [List.filter_append, List.filter_cons, hpr, List.filter_nil,
          List.append_nil]
        by_cases hin : id ∈ state.1
        · simp [hin, hiff.mpr hin]
        · have : id ∉ state.1 ++ [record.release_id] := fun hc => hin (hiff.mp hc)
          simp [hin, this]

/-- C2.  Release deduplication: for every input batch and every synthetic
release id, `extract_release_metadata` keeps exactly the first-seen record
with that id from the raw stream, and drops every later duplicate. -/
theorem release_dedup_first_seen_wins (releases : List (String × List RawRelease))
    (id : String) :
    (extract_release_metadata releases).filter (fun r => decide (r.release_id = id)) =
      ((raw_release_records releases).filter (fun r => decide (r.release_id = id))).take 1 := by
  rw [extract_release_metadata_eq_dedup_go, dedup_go_filter]
  simp
/-- Fold characterization of the crawl loop: pages `1 .. last` are each
requested exactly once, and the collected records are the concatenation of
the per-page results. -/
theorem get_all_extensions_spec {α : Type} (fetch : Nat → Option (List α))
    (last_page_number : Nat) :
    (get_all_extensions fetch last_page_number).requested_pages =
        List.range' 1 last_page_number ∧
      (get_all_extensions fetch last_page_number).all_extensions =
        (List.range' 1 last_page_number).flatMap (get_extensions_result fetch) := by
  unfold get_all_extensions
  suffices h : ∀ (pages : List Nat) (st : CrawlResult α),
      pages.foldl
        (fun st page_number =>
          { all_extensions := st.all_extensions ++ get_extensions_result fetch page_number
            requested_pages := st.requested_pages ++ [page_number] }) st =
        { all_extensions := st.all_extensions ++ pages.flatMap (get_extensions_result fetch)
          requested_pages := st.requested_pages ++ pages } by
    rw [h (List.range' 1 last_page_number) { all_extensions := [], requested_pages := [] }]
    simp
  intro pages
  induction pages with
  | nil => intro st; simp
  | cons page rest ih => intro st; simp [List.foldl_cons, ih]

/-- C4 (amended).  Paginator failure policy as implemented: every page in
`1 .. last` is requested exactly once — a failed (non-200) page contributes
zero records for its page number and is never retried — and the crawl
completes over all remaining pages. -/
theorem crawl_single_pass_no_retry {α : Type} (fetch : Nat → Option (List α))
    (last_page_number : Nat) :
    (get_all_extensions fetch last_page_number).requested_pages =
        List.range' 1 last_page_number ∧
      (get_all_extensions fetch last_page_number).requested_pages.Nodup ∧
      (get_all_extensions fetch last_page_number).all_extensions =
        (List.range' 1 last_page_number).flatMap (get_extensions_result fetch) := by
  obtain ⟨h1, h2⟩ := get_all_extensions_spec fetch last_page_number
  refine ⟨h1, ?_, h2⟩
  rw [h1, List.range'_eq_map_range]
  exact (List.nodup_range _).map fun a b h => by omega

/-- C4 (counterexample).  With three pages where page 2 fails (non-200), the
crawl requests page 2 exactly once: the failed page is not retried (the claim
requires a second, retry request for it). -/
theorem crawl_no_retry_counterexample :
    (fun p => if p = 2 then none else some [p]) 2 = (none : Option (List Nat)) ∧
      (get_all_extensions (fun p => if p = 2 then none else some [p]) 3).requested_pages.count 2
        = 1 ∧
      ¬ ((get_all_extensions
          (fun p => if p = 2 then none else some [p]) 3).requested_pages.count 2 = 2) := by
  refine ⟨rfl, ?_, ?_⟩ <;> decide
/-- One attempt never removes a persisted flag. -/
theorem upload_attempt_db_mono (download_ok : UploadRow → Bool) (db : ReleasesDb)
    (row : UploadRow) (p : String × String) (hp : p ∈ db) :
    p ∈ (upload_extension_to_s3 download_ok db row).db := by
  unfold upload_extension_to_s3
  by_cases h3 : download_ok row
  · simp only [h3, if_true]
    exact List.mem_append_left _ hp
  · simp only [h3, if_false]
    exact hp

/-- Every network call of one attempt pertains to the attempted row. -/
theorem upload_attempt_call_row (download_ok : UploadRow → Bool) (db : ReleasesDb)
    (row : UploadRow) :
    ∀ c ∈ (upload_extension_to_s3 download_ok db row).calls, c.row = row := by
  intro c hc
  by_cases h3 : download_ok row
  · rw [upload_extension_to_s3, if_pos h3] at hc
    simp only [List.mem_cons, List.mem_singleton, List.not_mem_nil, or_false] at hc
    rcases hc with rfl | rfl <;> rfl
  · rw [upload_extension_to_s3, if_neg h3] at hc
    simp only [List.mem_singleton, List.mem_cons, List.not_mem_nil, or_false] at hc
    subst hc; rfl

/-- An attempt succeeds exactly when the download does. -/
theorem upload_attempt_success (download_ok : UploadRow → Bool) (db : ReleasesDb)
    (row : UploadRow) :
    (upload_extension_to_s3 download_ok db row).success = download_ok row := by
  unfold upload_extension_to_s3
  by_cases h3 : download_ok row <;> simp [h3]

/-- A failed attempt leaves the database unchanged and makes exactly the one
download call. -/
theorem upload_attempt_failed (download_ok : UploadRow → Bool) (db : ReleasesDb)
    (row : UploadRow) (h : download_ok row = false) :
    upload_extension_to_s3 download_ok db row =
      { success := false, db := db, calls := [NetCall.download row] } := by
  unfold upload_extension_to_s3
  simp [h]

/-- Unfolding of the first pass on a row that is neither deduplicated nor
already flagged. -/
theorem upload_first_pass_attempt (download_ok : UploadRow → Bool)
    (st : UploadPassState) (row : UploadRow) (rest : List UploadRow)
    (h1 : row.extension_id ∉ st.unique_extensions)
    (h2 : ¬ is_uploaded_to_s3 st.db row.extension_id row.version) :
    upload_first_pass download_ok st (row :: rest) =
      upload_first_pass download_ok (upload_step_state download_ok st row) rest := by
  simp only [upload_first_pass, if_neg h1, if_neg h2]
  rfl
/-- Unfolding of the first pass on a row deduplicated by `extension_id`. -/
theorem upload_first_pass_seen (download_ok : UploadRow → Bool)
    (st : UploadPassState) (row : UploadRow) (rest : List UploadRow)
    (h1 : row.extension_id ∈ st.unique_extensions) :
    upload_first_pass download_ok st (row :: rest) =
      upload_first_pass download_ok st rest := by
  simp only [upload_first_pass, if_pos h1]

/-- Unfolding of the first pass on a row whose persisted flag is set. -/
theorem upload_first_pass_flagged (download_ok : UploadRow → Bool)
    (st : UploadPassState) (row : UploadRow) (rest : List UploadRow)
    (h1 : row.extension_id ∉ st.unique_extensions)
    (h2 : is_uploaded_to_s3 st.db row.extension_id row.version) :
    upload_first_pass download_ok st (row :: rest) =
      upload_first_pass download_ok
        { st with unique_extensions := st.unique_extensions ++ [row.extension_id] } rest := by
  simp only [upload_first_pass, if_neg h1, if_pos h2]

/-- The first pass only adds `uploaded_to_s3` flags, never removes one. -/
theorem upload_first_pass_db_mono (download_ok : UploadRow → Bool)
    (rows : List UploadRow) (st : UploadPassState) (p : String × String)
    (hp : p ∈ st.db) : p ∈ (upload_first_pass download_ok st rows).db := by
  induction rows generalizing st with
  | nil => exact hp
  | cons row rest ih =>
    by_cases h1 : row.extension_id ∈ st.unique_extensions
    · rw [upload_first_pass_seen download_ok st row rest h1]
      exact ih st hp
    · by_cases h2 : is_uploaded_to_s3 st.db row.extension_id row.version
      · rw [upload_first_pass_flagged download_ok st row rest h1 h2]
        exact ih { st with unique_extensions := st.unique_extensions ++ [row.extension_id] } hp
      · rw [upload_first_pass_attempt download_ok st row rest h1 h2]
        exact ih (upload_step_state download_ok st row)
          (upload_attempt_db_mono download_ok st.db row p hp)

/-- A release whose flag is already set in the threaded database is never the
subject of a first-pass network call nor recorded as failed. -/
theorem upload_first_pass_skips_flagged (download_ok : UploadRow → Bool)
    (rows : List UploadRow) (st : UploadPassState) (eid ver : String)
    (hp : (eid, ver) ∈ st.db) :
    (∀ c ∈ (upload_first_pass download_ok st rows).calls,
        c ∈ st.calls ∨ ¬(c.row.extension_id = eid ∧ c.row.version = ver)) ∧
      (∀ r ∈ (upload_first_pass download_ok st rows).failed_extensions,
        r ∈ st.failed_extensions ∨ ¬(r.extension_id = eid ∧ r.version = ver)) := by
  induction rows generalizing st with
  | nil => exact ⟨fun c hc => Or.inl hc, fun r hr => Or.inl hr⟩
  | cons row rest ih =>
    by_cases h1 : row.extension_id ∈ st.unique_extensions
    · rw [upload_first_pass_seen download_ok st row rest h1]
      exact ih st hp
    · by_cases h2 : is_uploaded_to_s3 st.db row.extension_id row.version
      · rw [upload_first_pass_flagged download_ok st row rest h1 h2]
        exact ih { st with unique_extensions := st.unique_extensions ++ [row.extension_id] } hp
      · rw [upload_first_pass_attempt download_ok st row rest h1 h2]
        have hrowne : ¬(row.extension_id = eid ∧ row.version = ver) := by
          rintro ⟨he, hv⟩
          apply h2
          unfold is_uploaded_to_s3
          rw [he, hv]
          exact decide_eq_true hp
        obtain ⟨ihc, ihf⟩ := ih (upload_step_state download_ok st row)
          (upload_attempt_db_mono download_ok st.db row _ hp)
        refine ⟨fun c hc => ?_, fun r hr => ?_⟩
        · rcases ihc c hc with hin | hok
          · rcases List.mem_append.mp hin with hin | hin
            · exact Or.inl hin
            · right
              rw [upload_attempt_call_row download_ok st.db row c hin]
              exact hrowne
          · exact Or.inr hok
        · rcases ihf r hr with hin | hok
          · rcases List.mem_append.mp hin with hin | hin
            · exact Or.inl hin
            · right
              by_cases h4 : (upload_extension_to_s3 download_ok st.db row).success
              · rw [if_pos h4] at hin
                exact absurd hin (List.not_mem_nil r)
              · rw [if_neg h4] at hin
                rw [List.mem_singleton.mp hin]
                exact hrowne
          · exact Or.inr hok

/-- When every row of the batch is already flagged, the first pass changes
nothing except the seen-set: no call, no failure, no database write. -/
theorem upload_first_pass_all_flagged (download_ok : UploadRow → Bool)
    (rows : List UploadRow) (st : UploadPassState)
    (h : ∀ r ∈ rows, is_uploaded_to_s3 st.db r.extension_id r.version = true) :
    (upload_first_pass download_ok st rows).db = st.db ∧
      (upload_first_pass download_ok st rows).calls = st.calls ∧
      (upload_first_pass download_ok st rows).failed_extensions = st.failed_extensions := by
  induction rows generalizing st with
  | nil => exact ⟨rfl, rfl, rfl⟩
  | cons row rest ih =>
    have hrow := h row (List.mem_cons_self row rest)
    by_cases h1 : row.extension_id ∈ st.unique_extensions
    · rw [upload_first_pass_seen download_ok st row rest h1]
      exact ih st fun r hr => h r (List.mem_cons_of_mem row hr)
    · rw [upload_first_pass_flagged download_ok st row rest h1 hrow]
      exact ih { st with unique_extensions := st.unique_extensions ++ [row.extension_id] }
        fun r hr => h r (List.mem_cons_of_mem row hr)

/-- The retry pass only adds flags, never removes one. -/
theorem upload_retry_pass_db_mono (download_ok : UploadRow → Bool)
    (failed : List UploadRow) (db : ReleasesDb) (calls : List NetCall)
    (p : String × String) (hp : p ∈ db) :
    p ∈ (upload_retry_pass download_ok (db, calls) failed).1 := by
  induction failed generalizing db calls with
  | nil => exact hp
  | cons row rest ih =>
    simp only [upload_retry_pass]
    exact ih _ _ (upload_attempt_db_mono download_ok db row p hp)

/-- Every call of the retry pass either was already in the trace or pertains
to a row of the failed list. -/
theorem upload_retry_pass_calls (download_ok : UploadRow → Bool)
    (failed : List UploadRow) (db : ReleasesDb) (calls : List NetCall) :
    ∀ c ∈ (upload_retry_pass download_ok (db, calls) failed).2,
      c ∈ calls ∨ c.row ∈ failed := by
  induction failed generalizing db calls with
  | nil => exact fun c hc => Or.inl hc
  | cons row rest ih =>
    intro c hc
    simp only [upload_retry_pass] at hc
    rcases ih _ _ c hc with hin | hrow
    · rcases List.mem_append.mp hin with hin | hin
      · exact Or.inl hin
      · right
        rw [upload_attempt_call_row download_ok db row c hin]
        exact List.mem_cons_self row rest
    · exact Or.inr (List.mem_cons_of_mem row hrow)
/-- The two-pass uploader, unfolded. -/
theorem upload_all_extensions_to_s3_eq (download_ok : UploadRow → Bool)
    (db : ReleasesDb) (rows : List UploadRow) :
    upload_all_extensions_to_s3 download_ok db rows =
      upload_retry_pass download_ok
        ((upload_first_pass download_ok ⟨[], db, [], []⟩ rows).db,
          (upload_first_pass download_ok ⟨[], db, [], []⟩ rows).calls)
        (upload_first_pass download_ok ⟨[], db, [], []⟩ rows).failed_extensions := rfl

/-- C5.  Archival upload idempotence: a release whose persisted
`uploaded_to_s3` flag is already true is skipped — the whole run makes no
network call (neither download nor upload) for it and its flag is left set;
and when every row is already archived the run is a no-op: final state equals
the initial database and the network trace is empty. -/
theorem upload_skip_already_archived (download_ok : UploadRow → Bool)
    (db : ReleasesDb) (rows : List UploadRow) (eid ver : String)
    (h : is_uploaded_to_s3 db eid ver = true) :
    (∀ c ∈ (upload_all_extensions_to_s3 download_ok db rows).2,
        ¬(c.row.extension_id = eid ∧ c.row.version = ver)) ∧
      is_uploaded_to_s3 (upload_all_extensions_to_s3 download_ok db rows).1 eid ver = true ∧
      ((∀ r ∈ rows, is_uploaded_to_s3 db r.extension_id r.version = true) →
        upload_all_extensions_to_s3 download_ok db rows = (db, [])) := by
  have hpdb : (eid, ver) ∈ db := of_decide_eq_true h
  rw [upload_all_extensions_to_s3_eq]
  obtain ⟨hcalls, hfailed⟩ :=
    upload_first_pass_skips_flagged download_ok rows ⟨[], db, [], []⟩ eid ver hpdb
  refine ⟨fun c hc => ?_, ?_, fun hall => ?_⟩
  · rcases upload_retry_pass_calls download_ok _ _ _ c hc with hin | hrow
    · rcases hcalls c hin with habs | hok
      · exact absurd habs (List.not_mem_nil c)
      · exact hok
    · rcases hfailed c.row hrow with habs | hok
      · exact absurd habs (List.not_mem_nil c.row)
      · exact hok
  · apply decide_eq_true
    exact upload_retry_pass_db_mono download_ok _ _ _ _
      (upload_first_pass_db_mono download_ok rows ⟨[], db, [], []⟩ _ hpdb)
  · obtain ⟨hdb, hc, hf⟩ :=
      upload_first_pass_all_flagged download_ok rows ⟨[], db, [], []⟩ hall
    rw [hdb, hc, hf]
    rfl

/-- Witness for `upload_skip_already_archived`: one release already flagged;
the second run returns the unchanged database and an empty network trace. -/
theorem upload_skip_already_archived_witness :
    is_uploaded_to_s3 [("e1", "1.0")] "e1" "1.0" = true ∧
      upload_all_extensions_to_s3 (fun _ => true) [("e1", "1.0")]
        [UploadRow.mk "e1" "pub" "ext" "1.0"] = ([("e1", "1.0")], []) :=
  ⟨by decide, (upload_skip_already_archived (fun _ => true) [("e1", "1.0")]
      [UploadRow.mk "e1" "pub" "ext" "1.0"] "e1" "1.0" (by decide)).2.2 (by decide)⟩
/-- An attempt makes no download call for any other row. -/
theorem upload_attempt_count_other (download_ok : UploadRow → Bool) (db : ReleasesDb)
    (row r : UploadRow) (hne : row ≠ r) :
    ((upload_extension_to_s3 download_ok db row).calls).count (NetCall.download r) = 0 := by
  rw [List.count_eq_zero]
  intro hmem
  have hr := upload_attempt_call_row download_ok db row _ hmem
  simp only [NetCall.row] at hr
  exact hne hr.symm

/-- An attempt of a row with a different `extension_id` cannot set the flag of
a pair it does not own. -/
theorem upload_attempt_db_other (download_ok : UploadRow → Bool) (db : ReleasesDb)
    (row : UploadRow) (e v : String) (hnot : (e, v) ∉ db) (hne : e ≠ row.extension_id) :
    (e, v) ∉ (upload_extension_to_s3 download_ok db row).db := by
  unfold upload_extension_to_s3
  by_cases h3 : download_ok row
  · simp only [h3, if_true]
    intro hmem
    rcases List.mem_append.mp hmem with hmem | hmem
    · exact hnot hmem
    · rw [List.mem_singleton] at hmem
      exact hne (congrArg Prod.fst hmem)
  · simp only [h3, if_false]
    exact hnot

/-- The seen-set of the first pass only grows. -/
theorem upload_first_pass_seen_mono (download_ok : UploadRow → Bool)
    (rows : List UploadRow) (st : UploadPassState) (e : String)
    (he : e ∈ st.unique_extensions) :
    e ∈ (upload_first_pass download_ok st rows).unique_extensions := by
  induction rows generalizing st with
  | nil => exact he
  | cons row rest ih =>
    by_cases h1 : row.extension_id ∈ st.unique_extensions
    · rw [upload_first_pass_seen download_ok st row rest h1]
      exact ih st he
    · by_cases h2 : is_uploaded_to_s3 st.db row.extension_id row.version
      · rw [upload_first_pass_flagged download_ok st row rest h1 h2]
        exact ih _ (List.mem_append_left _ he)
      · rw [upload_first_pass_attempt download_ok st row rest h1 h2]
        exact ih (upload_step_state download_ok st row) (List.mem_append_left _ he)

/-- Once an `extension_id` is in the seen-set, the rest of the first pass
attempts no row of that extension: its download-call count and its
failed-list count are unchanged. -/
theorem upload_first_pass_count_stable (download_ok : UploadRow → Bool)
    (rows : List UploadRow) (st : UploadPassState) (r : UploadRow)
    (h : r.extension_id ∈ st.unique_extensions) :
    (upload_first_pass download_ok st rows).calls.count (NetCall.download r) =
        st.calls.count (NetCall.download r) ∧
      (upload_first_pass download_ok st rows).failed_extensions.count r =
        st.failed_extensions.count r := by
  induction rows generalizing st with
  | nil => exact ⟨rfl, rfl⟩
  | cons row rest ih =>
    by_cases h1 : row.extension_id ∈ st.unique_extensions
    · rw [upload_first_pass_seen download_ok st row rest h1]
      exact ih st h
    · have hne : row ≠ r := fun he => h1 (he ▸ h)
      by_cases h2 : is_uploaded_to_s3 st.db row.extension_id row.version
      · rw [upload_first_pass_flagged download_ok st row rest h1 h2]
        exact ih _ (List.mem_append_left _ h)
      · rw [upload_first_pass_attempt download_ok st row rest h1 h2]
        obtain ⟨ic, ifl⟩ := ih (upload_step_state download_ok st row)
          (List.mem_append_left _ h)
        constructor
        · rw [ic]
          simp only [upload_step_state]
          rw [List.count_append,
            upload_attempt_count_other download_ok st.db row r hne, add_zero]
        · rw [ifl]
          simp only [upload_step_state]
          rw [List.count_append]
          have hz : (if (upload_extension_to_s3 download_ok st.db row).success
              then ([] : List UploadRow) else [row]).count r = 0 := by
            by_cases h4 : (upload_extension_to_s3 download_ok st.db row).success
            · rw [if_pos h4]; rfl
            · rw [if_neg h4, List.count_eq_zero]
              intro hmem
              exact hne (List.mem_singleton.mp hmem).symm
          rw [hz, add_zero]

/-- Once an `extension_id` is in the seen-set, no flag keyed by it is added by
the rest of the first pass. -/
theorem upload_first_pass_db_stable (download_ok : UploadRow → Bool)
    (rows : List UploadRow) (st : UploadPassState) (e v : String)
    (hseen : e ∈ st.unique_extensions) (hnot : (e, v) ∉ st.db) :
    (e, v) ∉ (upload_first_pass download_ok st rows).db := by
  induction rows generalizing st with
  | nil => exact hnot
  | cons row rest ih =>
    by_cases h1 : row.extension_id ∈ st.unique_extensions
    · rw [upload_first_pass_seen download_ok st row rest h1]
      exact ih st hseen hnot
    · have hne : e ≠ row.extension_id := fun he => h1 (he ▸ hseen)
      by_cases h2 : is_uploaded_to_s3 st.db row.extension_id row.version
      · rw [upload_first_pass_flagged download_ok st row rest h1 h2]
        exact ih _ (List.mem_append_left _ hseen) hnot
      · rw [upload_first_pass_attempt download_ok st row rest h1 h2]
        exact ih (upload_step_state download_ok st row)
          (List.mem_append_left _ hseen)
          (upload_attempt_db_other download_ok st.db row e v hnot hne)
/-- Characterization of first-pass failures: a newly failed row had a failing
download, its flag is not set at the end of the pass, it was downloaded
exactly once, and it is recorded exactly once in the failed list. -/
theorem upload_first_pass_failed_main (download_ok : UploadRow → Bool)
    (rows : List UploadRow) (st : UploadPassState) :
    ∀ r ∈ (upload_first_pass download_ok st rows).failed_extensions,
      r ∈ st.failed_extensions ∨
        (download_ok r = false ∧
          (r.extension_id, r.version) ∉ (upload_first_pass download_ok st rows).db ∧
          (upload_first_pass download_ok st rows).calls.count (NetCall.download r) =
            st.calls.count (NetCall.download r) + 1 ∧
          (upload_first_pass download_ok st rows).failed_extensions.count r =
            st.failed_extensions.count r + 1) := by
  induction rows generalizing st with
  | nil => exact fun r hr => Or.inl hr
  | cons row rest ih =>
    intro r hr
    by_cases h1 : row.extension_id ∈ st.unique_extensions
    · rw [upload_first_pass_seen download_ok st row rest h1] at hr ⊢
      exact ih st r hr
    · by_cases h2 : is_uploaded_to_s3 st.db row.extension_id row.version
      · rw [upload_first_pass_flagged download_ok st row rest h1 h2] at hr ⊢
        exact ih _ r hr
      · rw [upload_first_pass_attempt download_ok st row rest h1 h2] at hr ⊢
        have hseenrow : row.extension_id ∈
            (upload_step_state download_ok st row).unique_extensions := by
          simp [upload_step_state]
        rcases ih (upload_step_state download_ok st row) r hr with hin | hright
        · have hin2 : r ∈ st.failed_extensions ++
              (if (upload_extension_to_s3 download_ok st.db row).success
               then [] else [row]) := hin
          rcases List.mem_append.mp hin2 with hl | hr2
          · exact Or.inl hl
          · by_cases h4 : (upload_extension_to_s3 download_ok st.db row).success
            · rw [if_pos h4] at hr2
              exact absurd hr2 (List.not_mem_nil r)
            · rw [if_neg h4] at hr2
              have hrrow : r = row := List.mem_singleton.mp hr2
              subst hrrow
              have hdok : download_ok r = false := by
                have hs := upload_attempt_success download_ok st.db r
                cases hb : download_ok r with
                | false => rfl
                | true => exact absurd (hs.trans hb) h4
              have hoc := upload_attempt_failed download_ok st.db r hdok
              refine Or.inr ⟨hdok, ?_, ?_, ?_⟩
              · apply upload_first_pass_db_stable download_ok rest _ _ _ hseenrow
                simp only [upload_step_state, hoc]
                intro hmem
                exact h2 (decide_eq_true hmem)
              · obtain ⟨hc, _⟩ := upload_first_pass_count_stable download_ok rest
                  (upload_step_state download_ok st r) r hseenrow
                rw [hc]
                simp [upload_step_state, hoc, List.count_append]
              · obtain ⟨_, hf⟩ := upload_first_pass_count_stable download_ok rest
                  (upload_step_state download_ok st r) r hseenrow
                rw [hf]
                simp [upload_step_state, hoc, List.count_append]
        · by_cases hrw : r = row
          · exfalso
            obtain ⟨hdok, _, hc, _⟩ := hright
            obtain ⟨hcs, _⟩ := upload_first_pass_count_stable download_ok rest
              (upload_step_state download_ok st row) r (by rw [hrw]; exact hseenrow)
            rw [hcs] at hc
            omega
          · obtain ⟨hdok, hnotdb, hc, hf⟩ := hright
            refine Or.inr ⟨hdok, hnotdb, ?_, ?_⟩
            · rw [hc]
              simp only [upload_step_state]
              rw [List.count_append,
                upload_attempt_count_other download_ok st.db row r
                  (fun he => hrw he.symm), add_zero]
            · rw [hf]
              simp only [upload_step_state]
              rw [List.count_append]
              have hz : (if (upload_extension_to_s3 download_ok st.db row).success
                  then ([] : List UploadRow) else [row]).count r = 0 := by
                by_cases h4 : (upload_extension_to_s3 download_ok st.db row).success
                · rw [if_pos h4]; rfl
                · rw [if_neg h4, List.count_eq_zero]
                  intro hmem
                  exact hrw (List.mem_singleton.mp hmem)
              rw [hz, add_zero]

/-- When every failed row's download keeps failing, the retry pass changes no
flag and its trace is exactly one further download per failed row, in order. -/
theorem upload_retry_pass_all_failed (download_ok : UploadRow → Bool)
    (failed : List UploadRow) (db : ReleasesDb) (calls : List NetCall)
    (h : ∀ r ∈ failed, download_ok r = false) :
    upload_retry_pass download_ok (db, calls) failed =
      (db, calls ++ failed.map NetCall.download) := by
  induction failed generalizing db calls with
  | nil => simp [upload_retry_pass]
  | cons row rest ih =>
    simp only [upload_retry_pass]
    rw [upload_attempt_failed download_ok db row (h row (List.mem_cons_self row rest))]
    rw [ih db _ fun r hr => h r (List.mem_cons_of_mem row hr)]
    simp
/-- C7.  Consistency detection: when the object-store listing parses to `df`,
the validator emits exactly the joined rows whose persisted `uploaded_to_s3`
bit differs from the parsed-key membership test (a row is emitted iff it is
in the store and mismatches), and for every (publisher, extension, version)
triple the number of emitted discrepancies equals the number of mismatching
store rows with that triple — in particular one flagged-true row with no
matching key yields exactly one discrepancy.  The validator is read-only by
construction: it returns only the emission list. -/
theorem validate_consistency (object_keys : List PyStr) (rows : List JoinedRow)
    (df : List S3KeyRow) (hdf : object_keys_to_dataframe object_keys = some df) :
    validate_data object_keys rows =
        some (rows.filter (fun row =>
          decide (row.uploaded_to_s3 ≠ verified_uploaded_to_s3 df
            row.publisher_name row.extension_name row.version))) ∧
      (∀ row, row ∈ (validate_data object_keys rows).getD [] ↔
        row ∈ rows ∧ row.uploaded_to_s3 ≠ verified_uploaded_to_s3 df
          row.publisher_name row.extension_name row.version) ∧
      (∀ p e v, ((validate_data object_keys rows).getD []).countP
          (fun row => decide (row.publisher_name = p ∧
            row.extension_name = e ∧ row.version = v)) =
        rows.countP (fun row => decide ((row.publisher_name = p ∧
            row.extension_name = e ∧ row.version = v) ∧
          row.uploaded_to_s3 ≠ verified_uploaded_to_s3 df
            row.publisher_name row.extension_name row.version))) := by
  have h1 : validate_data object_keys rows =
      some (rows.filter (fun row =>
        decide (row.uploaded_to_s3 ≠ verified_uploaded_to_s3 df
          row.publisher_name row.extension_name row.version))) := by
    unfold validate_data
    rw [hdf]
  refine ⟨h1, fun row => ?_, fun p e v => ?_⟩
  · rw [h1]
    simp [List.mem_filter]
  · rw [h1]
    simp only [Option.getD_some]
    rw [List.countP_filter]
    apply List.countP_congr
    intro row _
    simp [Bool.decide_and]

/-- Witness for `validate_consistency`: a listing with one key
`extensions/p/e/1.0.vsix` and one store row for version `2.0` flagged true. -/
theorem validate_consistency_witness :
    object_keys_to_dataframe [("extensions/p/e/1.0.vsix").toList] =
        some [S3KeyRow.mk ("p").toList ("e").toList ("1.0").toList] ∧
      validate_data [("extensions/p/e/1.0.vsix").toList]
          [JoinedRow.mk ("p").toList ("e").toList ("2.0").toList true] =
        some ([JoinedRow.mk ("p").toList ("e").toList ("2.0").toList true].filter
          (fun row => decide (row.uploaded_to_s3 ≠ verified_uploaded_to_s3
            [S3KeyRow.mk ("p").toList ("e").toList ("1.0").toList]
            row.publisher_name row.extension_name row.version))) :=
  ⟨by decide,
    (validate_consistency [("extensions/p/e/1.0.vsix").toList]
      [JoinedRow.mk ("p").toList ("e").toList ("2.0").toList true]
      [S3KeyRow.mk ("p").toList ("e").toList ("1.0").toList] (by decide)).1⟩
/-- `find?` returns the head of the filtered list. -/
theorem find?_eq_filter_head? {α : Type} (p : α → Bool) (l : List α) :
    l.find? p = (l.filter p).head? := by
  induction l with
  | nil => rfl
  | cons a rest ih =>
    by_cases h : p a
    · rw [List.find?_cons_of_pos _ h, List.filter_cons_of_pos h]
      rfl
    · rw [List.find?_cons_of_neg _ h, List.filter_cons_of_neg h]
      exact ih

/-- Assigning an existing key leaves the dict's key list unchanged. -/
theorem dict_set_keys (d : List (String × Int)) (k : String) (v : Int) :
    dict_keys (dict_set d k v) = dict_keys d := by
  induction d with
  | nil => rfl
  | cons p rest ih =>
    show ((if p.1 = k then (k, v) else p).1) :: dict_keys (dict_set rest k v)
        = p.1 :: dict_keys rest
    rw [ih]
    by_cases h : p.1 = k
    · rw [if_pos h, h]
    · rw [if_neg h]

/-- The statistics fold never changes the key list. -/
theorem stats_fold_keys (stats : List (String × Int)) (d : List (String × Int)) :
    dict_keys (stats.foldl
      (fun d stat => if stat.1 ∈ dict_keys d then dict_set d stat.1 stat.2 else d) d) =
      dict_keys d := by
  induction stats generalizing d with
  | nil => rfl
  | cons s rest ih =>
    rw [List.foldl_cons]
    by_cases h : s.1 ∈ dict_keys d
    · rw [if_pos h, ih, dict_set_keys]
    · rw [if_neg h, ih]

/-- Looking up the assigned key after assignment yields the new value. -/
theorem dict_lookup_set_self (d : List (String × Int)) (k : String) (v : Int)
    (hk : k ∈ dict_keys d) : dict_lookup (dict_set d k v) k = some v := by
  induction d with
  | nil => exact absurd hk (List.not_mem_nil k)
  | cons p rest ih =>
    by_cases h : p.1 = k
    · simp [dict_set, dict_lookup, List.find?_cons, h]
    · have hk2 : k ∈ dict_keys rest := by
        rcases List.mem_cons.mp hk with h1 | h1
        · exact absurd h1.symm h
        · exact h1
      simp only [dict_set, List.map_cons, if_neg h, dict_lookup, List.find?_cons]
      have hbeq : (p.1 == k) = false := by
        simp [h]
      rw [hbeq]
      exact ih hk2

/-- Assignment to a different key does not change a lookup. -/
theorem dict_lookup_set_other (d : List (String × Int)) (j k : String) (v : Int)
    (hjk : j ≠ k) : dict_lookup (dict_set d j v) k = dict_lookup d k := by
  induction d with
  | nil => rfl
  | cons p rest ih =>
    by_cases h : p.1 = j
    · have hbeq : (j == k) = false := by simp [hjk]
      have hbeq2 : (p.1 == k) = false := by simp [h, hjk]
      simp only [dict_set, List.map_cons, if_pos h, dict_lookup, List.find?_cons,
        hbeq, hbeq2]
      exact ih
    · simp only [dict_set, List.map_cons, if_neg h, dict_lookup, List.find?_cons]
      by_cases h2 : (p.1 == k)
      · rw [h2]
      · simp only [Bool.not_eq_true] at h2
        rw [h2]
        exact ih

/-- A key outside the key list looks up to `none`. -/
theorem dict_lookup_not_mem (d : List (String × Int)) (k : String)
    (hk : k ∉ dict_keys d) : dict_lookup d k = none := by
  induction d with
  | nil => rfl
  | cons p rest ih =>
    have h1 : p.1 ≠ k := fun h => hk (by simp [dict_keys, h])
    have h2 : k ∉ dict_keys rest := fun h => hk (by simp [dict_keys]; right; simpa [dict_keys] using h)
    have hbeq : (p.1 == k) = false := by simp [h1]
    simp only [dict_lookup, List.find?_cons, hbeq]
    exact ih h2

/-- Lookup after the statistics fold: the last matching input entry wins;
with no matching entry the initial dict's value remains. -/
theorem stats_fold_lookup (stats : List (String × Int)) (d : List (String × Int))
    (k : String) (hk : k ∈ dict_keys d) :
    dict_lookup (stats.foldl
        (fun d stat => if stat.1 ∈ dict_keys d then dict_set d stat.1 stat.2 else d) d) k =
      match stats.reverse.find? (fun s => s.1 == k) with
      | some s => some s.2
      | none => dict_lookup d k := by
  induction stats generalizing d with
  | nil => rfl
  | cons s rest ih =>
    rw [List.foldl_cons, List.reverse_cons, List.find?_append]
    have hkeys : dict_keys (if s.1 ∈ dict_keys d then dict_set d s.1 s.2 else d) =
        dict_keys d := by
      by_cases h : s.1 ∈ dict_keys d
      · rw [if_pos h, dict_set_keys]
      · rw [if_neg h]
    have hk2 : k ∈ dict_keys (if s.1 ∈ dict_keys d then dict_set d s.1 s.2 else d) := by
      rw [hkeys]; exact hk
    rw [ih _ hk2]
    cases hfind : rest.reverse.find? (fun s => s.1 == k) with
    | some t => simp [Option.or]
    | none =>
      simp only [Option.or]
      by_cases hs : s.1 = k
      · have hsk : s.1 ∈ dict_keys d := hs ▸ hk
        rw [if_pos hsk]
        have hbeq : (s.1 == k) = true := by simp [hs]
        simp only [List.find?_cons, hbeq]
        rw [← hs]
        exact dict_lookup_set_self d s.1 s.2 hsk
      · have hbeq : (s.1 == k) = false := by simp [hs]
        simp only [List.find?_cons, hbeq, List.find?_nil]
        by_cases h : s.1 ∈ dict_keys d
        · rw [if_pos h]
          exact dict_lookup_set_other d s.1 k s.2 hs
        · rw [if_neg h]
/-- Every allowlisted key of the initial statistics dict maps to `0`. -/
theorem dict_lookup_init (k : String) (hk : k ∈ dict_keys extension_stats_init) :
    dict_lookup extension_stats_init k = some 0 := by
  simp only [extension_stats_init, dict_keys, List.map_cons, List.map_nil,
    List.mem_cons, List.not_mem_nil, or_false] at hk
  rcases hk with rfl | rfl | rfl | rfl | rfl | rfl | rfl | rfl | rfl <;> rfl

/-- C8.  Statistics allowlist: the extracted dict's key set is exactly the
fixed allowlist; an allowlisted name occurring exactly once in the input maps
to its input value; an allowlisted name absent from the input maps to `0`;
and every non-allowlisted name is dropped (absent from the result). -/
theorem statistics_allowlist (stats : List (String × Int)) :
    dict_keys (extract_extension_statistics stats) =
        ["install", "averagerating", "ratingcount", "trendingdaily", "trendingmonthly",
          "trendingweekly", "updateCount", "weightedRating", "downloadCount"] ∧
      (∀ k v, k ∈ dict_keys extension_stats_init →
        stats.filter (fun s => s.1 == k) = [(k, v)] →
        dict_lookup (extract_extension_statistics stats) k = some v) ∧
      (∀ k, k ∈ dict_keys extension_stats_init → (∀ v : Int, (k, v) ∉ stats) →
        dict_lookup (extract_extension_statistics stats) k = some 0) ∧
      (∀ k, k ∉ dict_keys extension_stats_init →
        dict_lookup (extract_extension_statistics stats) k = none) := by
  refine ⟨?_, fun k v hk hfilter => ?_, fun k hk habs => ?_, fun k hk => ?_⟩
  · rw [show extract_extension_statistics stats = stats.foldl
        (fun d stat => if stat.1 ∈ dict_keys d then dict_set d stat.1 stat.2 else d)
        extension_stats_init from rfl, stats_fold_keys]
    rfl
  · rw [extract_extension_statistics, stats_fold_lookup stats extension_stats_init k hk]
    rw [find?_eq_filter_head?, List.filter_reverse, hfilter]
    rfl
  · rw [extract_extension_statistics, stats_fold_lookup stats extension_stats_init k hk]
    have hnone : stats.reverse.find? (fun s => s.1 == k) = none := by
      rw [List.find?_eq_none]
      intro x hx hpx
      have hx1 : x.1 = k := by simpa using hpx
      exact habs x.2 (by
        have : x = (k, x.2) := by
          cases x
          simp only at hx1
          rw [hx1]
        rw [← this]
        exact List.mem_reverse.mp hx)
    rw [hnone]
    exact dict_lookup_init k hk
  · apply dict_lookup_not_mem
    rw [show extract_extension_statistics stats = stats.foldl
        (fun d stat => if stat.1 ∈ dict_keys d then dict_set d stat.1 stat.2 else d)
        extension_stats_init from rfl, stats_fold_keys]
    exact hk

/-- Witness for `statistics_allowlist` at the spec's example input:
`install: 1500` is kept, `irrelevantStat: 9999` is dropped, and the absent
recognized name `averagerating` defaults to `0`. -/
theorem statistics_allowlist_witness :
    dict_lookup (extract_extension_statistics
        [("install", 1500), ("irrelevantStat", 9999)]) "install" = some 1500 ∧
      dict_lookup (extract_extension_statistics
        [("install", 1500), ("irrelevantStat", 9999)]) "irrelevantStat" = none ∧
      dict_lookup (extract_extension_statistics
        [("install", 1500), ("irrelevantStat", 9999)]) "averagerating" = some 0 :=
  ⟨(statistics_allowlist [("install", 1500), ("irrelevantStat", 9999)]).2.1
      "install" 1500 (by decide) (by decide),
    (statistics_allowlist [("install", 1500), ("irrelevantStat", 9999)]).2.2.2
      "irrelevantStat" (by decide),
    (statistics_allowlist [("install", 1500), ("irrelevantStat", 9999)]).2.2.1
      "averagerating" (by decide) (fun v hv => by simp at hv)⟩
/-- C9 (bug exhibit).  At two rows and batch size 1, the releases upsert loop
runs the expected two iterations but hands the full two-row list to
`upsert_data` in each statement (`upsert_data(..., values)` instead of the
sliced `batch`), so a statement exceeds the batch size; the extensions upsert
correctly passes the one-row slices. -/
theorem upsert_releases_full_values_bug :
    upsert_releases_statements ["r1", "r2"] 1 = [["r1", "r2"], ["r1", "r2"]] ∧
      (∃ stmt ∈ upsert_releases_statements ["r1", "r2"] 1, 1 < stmt.length) ∧
      upsert_extensions_statements ["r1", "r2"] 1 = [["r1"], ["r2"]] := by
  refine ⟨?_, ?_, ?_⟩ <;> decide
/-- Splitting a string without the separator yields the single field. -/
theorem split_no_sep (sep : Char) (b : PyStr) (h : sep ∉ b) :
    split_on_char sep b = [b] := by
  induction b with
  | nil => rfl
  | cons c cs ih =>
    have hc : c ≠ sep := fun hce => h (hce ▸ List.mem_cons_self c cs)
    have hcs : sep ∉ cs := fun hm => h (List.mem_cons_of_mem c hm)
    simp only [split_on_char, if_neg hc, ih hcs]
    rfl

/-- Splitting past a separator-free prefix produces it as the first field. -/
theorem split_append (sep : Char) (a rest : PyStr) (h : sep ∉ a) :
    split_on_char sep (a ++ sep :: rest) = a :: split_on_char sep rest := by
  induction a with
  | nil => simp [split_on_char]
  | cons c a2 ih =>
    have hc : c ≠ sep := fun hce => h (hce ▸ List.mem_cons_self c a2)
    have ha2 : sep ∉ a2 := fun hm => h (List.mem_cons_of_mem c hm)
    show split_on_char sep (c :: (a2 ++ sep :: rest)) = (c :: a2) :: split_on_char sep rest
    simp only [split_on_char, if_neg hc]
    rw [ih ha2]
    rfl

/-- `".vsix"` cannot start inside a `".vsix"`-free string `v` and overlap into
an appended `".vsix"`: if it prefixes `v ++ ".vsix"` then `v` is empty. -/
theorem dot_vsix_prefix_append (v : PyStr) (hocc : occurs dot_vsix v = false)
    (hpre : dot_vsix.isPrefixOf (v ++ dot_vsix) = true) : v = [] := by
  rcases v with _ | ⟨a, _ | ⟨b, _ | ⟨c, _ | ⟨d, _ | ⟨e, rest⟩⟩⟩⟩⟩
  · rfl
  · exfalso
    simp only [dot_vsix, List.cons_append, List.nil_append, List.isPrefixOf,
      Bool.and_eq_true] at hpre
    exact absurd hpre.2.1 (by decide)
  · exfalso
    simp only [dot_vsix, List.cons_append, List.nil_append, List.isPrefixOf,
      Bool.and_eq_true] at hpre
    exact absurd hpre.2.2.1 (by decide)
  · exfalso
    simp only [dot_vsix, List.cons_append, List.nil_append, List.isPrefixOf,
      Bool.and_eq_true] at hpre
    exact absurd hpre.2.2.2.1 (by decide)
  · exfalso
    simp only [dot_vsix, List.cons_append, List.nil_append, List.isPrefixOf,
      Bool.and_eq_true] at hpre
    exact absurd hpre.2.2.2.2.1 (by decide)
  · exfalso
    simp only [dot_vsix, List.cons_append, List.nil_append, List.isPrefixOf,
      Bool.and_eq_true] at hpre
    obtain ⟨h1, h2, h3, h4, h5, -⟩ := hpre
    have : occurs dot_vsix (a :: b :: c :: d :: e :: rest) = true := by
      simp only [occurs, Bool.or_eq_true]
      left
      simp only [dot_vsix, List.isPrefixOf, Bool.and_eq_true]
      exact ⟨h1, h2, h3, h4, h5, by simp [List.isPrefixOf]⟩
    rw [this] at hocc
    exact absurd hocc (by decide)

/-- With the skip counter at least the remaining length, the deletion scan
consumes everything. -/
theorem replace_del_go_skip_all (pat : PyStr) (l : PyStr) (skip : Nat)
    (h : l.length ≤ skip) : replace_del_go pat l skip = [] := by
  induction l generalizing skip with
  | nil => rfl
  | cons c cs ih =>
    cases skip with
    | zero => simp at h
    | succ s =>
      simp only [replace_del_go]
      exact ih s (by simpa using h)

/-- Deleting `".vsix"` from `v ++ ".vsix"` recovers `v` when `v` itself is
`".vsix"`-free. -/
theorem replace_del_suffix (v : PyStr) (hocc : occurs dot_vsix v = false) :
    replace_del (v ++ dot_vsix) dot_vsix = v := by
  unfold replace_del
  induction v with
  | nil =>
    show replace_del_go dot_vsix ([] ++ dot_vsix) 0 = []
    decide
  | cons ch v2 ih =>
    have hsplit : dot_vsix.isPrefixOf (ch :: v2) = false ∧ occurs dot_vsix v2 = false := by
      have := hocc
      simp only [occurs, Bool.or_eq_false_iff] at this
      exact this
    have hnotpre : ¬ (dot_vsix ≠ [] ∧ dot_vsix.isPrefixOf (ch :: v2 ++ dot_vsix) = true) := by
      rintro ⟨-, hp⟩
      have := dot_vsix_prefix_append (ch :: v2) hocc (by simpa using hp)
      simp at this
    show replace_del_go dot_vsix (ch :: (v2 ++ dot_vsix)) 0 = ch :: v2
    simp only [replace_del_go]
    rw [if_neg (by simpa using hnotpre)]
    rw [ih hsplit.2]
/-- Parsing the uploader's key format recovers the three segments. -/
theorem parse_upload_object_key (pub name ver : PyStr)
    (h1 : '/' ∉ pub) (h2 : '/' ∉ name) (h3 : '/' ∉ ver)
    (h4 : occurs dot_vsix ver = false) :
    parse_object_key (upload_object_key pub name ver) =
      some (S3KeyRow.mk pub name ver) := by
  have hvd : '/' ∉ ver ++ dot_vsix := by
    intro hm
    rcases List.mem_append.mp hm with hm | hm
    · exact h3 hm
    · revert hm
      decide
  have hkey : upload_object_key pub name ver =
      extensions_lit ++ '/' :: (pub ++ '/' :: (name ++ '/' :: (ver ++ dot_vsix))) := by
    unfold upload_object_key
    simp [List.append_assoc]
  have hsplit : split_on_char '/' (upload_object_key pub name ver) =
      [extensions_lit, pub, name, ver ++ dot_vsix] := by
    rw [hkey, split_append '/' extensions_lit _ (by decide),
      split_append '/' pub _ h1, split_append '/' name _ h2,
      split_no_sep '/' _ hvd]
  unfold parse_object_key
  rw [hsplit]
  simp only [List.get?]
  rw [replace_del_suffix ver h4]

/-- Membership transport through the listing parser. -/
theorem object_keys_to_dataframe_mem (keys : List PyStr) (df : List S3KeyRow)
    (h : object_keys_to_dataframe keys = some df) (k : PyStr) (hk : k ∈ keys)
    (row : S3KeyRow) (hrow : parse_object_key k = some row) : row ∈ df := by
  induction keys generalizing df with
  | nil => exact absurd hk (List.not_mem_nil k)
  | cons k0 rest ih =>
    simp only [object_keys_to_dataframe] at h
    cases hp : parse_object_key k0 with
    | none => rw [hp] at h; exact absurd h (by simp)
    | some row0 =>
      rw [hp] at h
      cases hr : object_keys_to_dataframe rest with
      | none => rw [hr] at h; exact absurd h (by simp)
      | some rows =>
        rw [hr] at h
        simp only [Option.some.injEq] at h
        subst h
        rcases List.mem_cons.mp hk with hk0 | hkr
        · subst hk0
          rw [hp] at hrow
          simp only [Option.some.injEq] at hrow
          subst hrow
          exact List.mem_cons_self row0 rows
        · exact List.mem_cons_of_mem row0 (ih rows hr hkr)

/-- C10.  Object-key round trip: for segments without `/` and a version
without the substring `".vsix"`, parsing the uploader's key
`extensions/{publisher}/{extension}/{version}.vsix` recovers exactly the
original triple, and `verified_uploaded_to_s3` answers true on that triple
for any parsed listing containing the key. -/
theorem object_key_round_trip (pub name ver : PyStr)
    (h1 : '/' ∉ pub) (h2 : '/' ∉ name) (h3 : '/' ∉ ver)
    (h4 : occurs dot_vsix ver = false) :
    parse_object_key (upload_object_key pub name ver) =
        some (S3KeyRow.mk pub name ver) ∧
      (∀ keys df, object_keys_to_dataframe keys = some df →
        upload_object_key pub name ver ∈ keys →
        verified_uploaded_to_s3 df pub name ver = true) := by
  have hparse := parse_upload_object_key pub name ver h1 h2 h3 h4
  refine ⟨hparse, fun keys df hdf hk => ?_⟩
  have hmem : S3KeyRow.mk pub name ver ∈ df :=
    object_keys_to_dataframe_mem keys df hdf _ hk _ hparse
  unfold verified_uploaded_to_s3
  rw [List.any_eq_true]
  exact ⟨S3KeyRow.mk pub name ver, hmem, decide_eq_true ⟨rfl, rfl, rfl⟩⟩

/-- Witness for `object_key_round_trip` at publisher `p`, extension `e`,
version `1.0`. -/
theorem object_key_round_trip_witness :
    parse_object_key (upload_object_key ("p").toList ("e").toList ("1.0").toList) =
        some (S3KeyRow.mk ("p").toList ("e").toList ("1.0").toList) ∧
      verified_uploaded_to_s3
        [S3KeyRow.mk ("p").toList ("e").toList ("1.0").toList]
        ("p").toList ("e").toList ("1.0").toList = true :=
  ⟨(object_key_round_trip ("p").toList ("e").toList ("1.0").toList
      (by decide) (by decide) (by decide) (by decide)).1,
    (object_key_round_trip ("p").toList ("e").toList ("1.0").toList
      (by decide) (by decide) (by decide) (by decide)).2
      [upload_object_key ("p").toList ("e").toList ("1.0").toList]
      [S3KeyRow.mk ("p").toList ("e").toList ("1.0").toList] (by decide) (by decide)⟩
/-- Unfolding of the exception-aware first pass on a deduplicated row. -/
theorem upload_first_pass_exn_seen (net : UploadRow → NetOutcome)
    (st : UploadPassState) (row : UploadRow) (rest : List UploadRow)
    (h1 : row.extension_id ∈ st.unique_extensions) :
    upload_first_pass_exn net st (row :: rest) =
      upload_first_pass_exn net st rest := by
  simp only [upload_first_pass_exn, if_pos h1]

/-- Unfolding of the exception-aware first pass on an already-flagged row. -/
theorem upload_first_pass_exn_flagged (net : UploadRow → NetOutcome)
    (st : UploadPassState) (row : UploadRow) (rest : List UploadRow)
    (h1 : row.extension_id ∉ st.unique_extensions)
    (h2 : is_uploaded_to_s3 st.db row.extension_id row.version) :
    upload_first_pass_exn net st (row :: rest) =
      upload_first_pass_exn net
        { st with unique_extensions := st.unique_extensions ++ [row.extension_id] } rest := by
  simp only [upload_first_pass_exn, if_neg h1, if_pos h2]

/-- Unfolding on an attempted row whose download returns a non-200 status. -/
theorem upload_first_pass_exn_bad (net : UploadRow → NetOutcome)
    (st : UploadPassState) (row : UploadRow) (rest : List UploadRow)
    (h1 : row.extension_id ∉ st.unique_extensions)
    (h2 : ¬ is_uploaded_to_s3 st.db row.extension_id row.version)
    (hnet : net row = NetOutcome.badStatus) :
    upload_first_pass_exn net st (row :: rest) =
      upload_first_pass_exn net
        { unique_extensions := st.unique_extensions ++ [row.extension_id]
          db := st.db
          calls := st.calls ++ [NetCall.download row]
          failed_extensions := st.failed_extensions ++ [row] } rest := by
  simp only [upload_first_pass_exn, if_neg h1, if_neg h2,
    upload_extension_to_s3_exn, hnet]
  simp

/-- Unfolding on an attempted row whose download and upload both succeed. -/
theorem upload_first_pass_exn_ok_outcome (net : UploadRow → NetOutcome)
    (st : UploadPassState) (row : UploadRow) (rest : List UploadRow)
    (h1 : row.extension_id ∉ st.unique_extensions)
    (h2 : ¬ is_uploaded_to_s3 st.db row.extension_id row.version)
    (hnet : net row = NetOutcome.ok) :
    upload_first_pass_exn net st (row :: rest) =
      upload_first_pass_exn net
        { unique_extensions := st.unique_extensions ++ [row.extension_id]
          db := set_uploaded_to_s3 st.db row.extension_id row.version
          calls := st.calls ++ [NetCall.download row, NetCall.upload row]
          failed_extensions := st.failed_extensions } rest := by
  simp only [upload_first_pass_exn, if_neg h1, if_neg h2,
    upload_extension_to_s3_exn, hnet]
  simp

/-- Unfolding on an attempted row whose download raises: the exception
escapes with the partial state; the row is not recorded as failed. -/
theorem upload_first_pass_exn_draise (net : UploadRow → NetOutcome)
    (st : UploadPassState) (row : UploadRow) (rest : List UploadRow)
    (h1 : row.extension_id ∉ st.unique_extensions)
    (h2 : ¬ is_uploaded_to_s3 st.db row.extension_id row.version)
    (hnet : net row = NetOutcome.downloadRaises) :
    upload_first_pass_exn net st (row :: rest) =
      Except.error
        { db := st.db
          calls := st.calls ++ [NetCall.download row]
          failed_extensions := st.failed_extensions } := by
  simp only [upload_first_pass_exn, if_neg h1, if_neg h2,
    upload_extension_to_s3_exn, hnet]

/-- Unfolding on an attempted row whose upload raises after a 200 download:
the exception escapes with the partial state; the flag is not persisted and
the row is not recorded as failed. -/
theorem upload_first_pass_exn_uraise (net : UploadRow → NetOutcome)
    (st : UploadPassState) (row : UploadRow) (rest : List UploadRow)
    (h1 : row.extension_id ∉ st.unique_extensions)
    (h2 : ¬ is_uploaded_to_s3 st.db row.extension_id row.version)
    (hnet : net row = NetOutcome.uploadRaises) :
    upload_first_pass_exn net st (row :: rest) =
      Except.error
        { db := st.db
          calls := st.calls ++ [NetCall.download row, NetCall.upload row]
          failed_extensions := st.failed_extensions } := by
  simp only [upload_first_pass_exn, if_neg h1, if_neg h2,
    upload_extension_to_s3_exn, hnet]
/-- When the exception-aware first pass completes without a raise, it
coincides with the raise-free first pass driven by download success
`net r = ok`. -/
theorem upload_first_pass_exn_ok_bridge (net : UploadRow → NetOutcome)
    (rows : List UploadRow) (st : UploadPassState) (fp : UploadPassState)
    (h : upload_first_pass_exn net st rows = Except.ok fp) :
    upload_first_pass (fun r => decide (net r = NetOutcome.ok)) st rows = fp := by
  induction rows generalizing st with
  | nil =>
    simp only [upload_first_pass_exn, Except.ok.injEq] at h
    exact h
  | cons row rest ih =>
    by_cases h1 : row.extension_id ∈ st.unique_extensions
    · rw [upload_first_pass_exn_seen net st row rest h1] at h
      rw [upload_first_pass_seen _ st row rest h1]
      exact ih st h
    · by_cases h2 : is_uploaded_to_s3 st.db row.extension_id row.version
      · rw [upload_first_pass_exn_flagged net st row rest h1 h2] at h
        rw [upload_first_pass_flagged _ st row rest h1 h2]
        exact ih _ h
      · cases hnet : net row with
        | badStatus =>
          rw [upload_first_pass_exn_bad net st row rest h1 h2 hnet] at h
          rw [upload_first_pass_attempt _ st row rest h1 h2]
          have hdok : (fun r => decide (net r = NetOutcome.ok)) row = false := by
            simp [hnet]
          have hstep : upload_step_state (fun r => decide (net r = NetOutcome.ok)) st row =
              { unique_extensions := st.unique_extensions ++ [row.extension_id]
                db := st.db
                calls := st.calls ++ [NetCall.download row]
                failed_extensions := st.failed_extensions ++ [row] } := by
            unfold upload_step_state
            rw [upload_attempt_failed _ st.db row hdok]
            simp
          rw [hstep]
          exact ih _ h
        | ok =>
          rw [upload_first_pass_exn_ok_outcome net st row rest h1 h2 hnet] at h
          rw [upload_first_pass_attempt _ st row rest h1 h2]
          have hdok : (fun r => decide (net r = NetOutcome.ok)) row = true := by
            simp [hnet]
          have hstep : upload_step_state (fun r => decide (net r = NetOutcome.ok)) st row =
              { unique_extensions := st.unique_extensions ++ [row.extension_id]
                db := set_uploaded_to_s3 st.db row.extension_id row.version
                calls := st.calls ++ [NetCall.download row, NetCall.upload row]
                failed_extensions := st.failed_extensions } := by
            unfold upload_step_state upload_extension_to_s3
            simp [hdok]
          rw [hstep]
          exact ih _ h
        | downloadRaises =>
          rw [upload_first_pass_exn_draise net st row rest h1 h2 hnet] at h
          exact absurd h (by simp)
        | uploadRaises =>
          rw [upload_first_pass_exn_uraise net st row rest h1 h2 hnet] at h
          exact absurd h (by simp)

/-- Every row recorded as failed — whether the pass completes or later
aborts — had a non-200 download: a raising attempt is never recorded. -/
theorem upload_first_pass_exn_failed_chars (net : UploadRow → NetOutcome)
    (rows : List UploadRow) (st : UploadPassState) :
    (∀ fp, upload_first_pass_exn net st rows = Except.ok fp →
      ∀ r ∈ fp.failed_extensions,
        r ∈ st.failed_extensions ∨ net r = NetOutcome.badStatus) ∧
      (∀ ab, upload_first_pass_exn net st rows = Except.error ab →
        ∀ r ∈ ab.failed_extensions,
          r ∈ st.failed_extensions ∨ net r = NetOutcome.badStatus) := by
  induction rows generalizing st with
  | nil =>
    constructor
    · intro fp h r hr
      simp only [upload_first_pass_exn, Except.ok.injEq] at h
      subst h
      exact Or.inl hr
    · intro ab h
      simp [upload_first_pass_exn] at h
  | cons row rest ih =>
    by_cases h1 : row.extension_id ∈ st.unique_extensions
    · rw [upload_first_pass_exn_seen net st row rest h1]
      exact ih st
    · by_cases h2 : is_uploaded_to_s3 st.db row.extension_id row.version
      · rw [upload_first_pass_exn_flagged net st row rest h1 h2]
        exact ih _
      · cases hnet : net row with
        | badStatus =>
          rw [upload_first_pass_exn_bad net st row rest h1 h2 hnet]
          obtain ⟨ihok, iherr⟩ := ih
            { unique_extensions := st.unique_extensions ++ [row.extension_id]
              db := st.db
              calls := st.calls ++ [NetCall.download row]
              failed_extensions := st.failed_extensions ++ [row] }
          have htrans : ∀ r, r ∈ st.failed_extensions ++ [row] ∨ net r = NetOutcome.badStatus →
              r ∈ st.failed_extensions ∨ net r = NetOutcome.badStatus := by
            intro r hr
            rcases hr with hr | hr
            · rcases List.mem_append.mp hr with hr | hr
              · exact Or.inl hr
              · right
                rw [List.mem_singleton.mp hr]
                exact hnet
            · exact Or.inr hr
          exact ⟨fun fp h r hr => htrans r (ihok fp h r hr),
            fun ab h r hr => htrans r (iherr ab h r hr)⟩
        | ok =>
          rw [upload_first_pass_exn_ok_outcome net st row rest h1 h2 hnet]
          exact ih _
        | downloadRaises =>
          rw [upload_first_pass_exn_draise net st row rest h1 h2 hnet]
          constructor
          · intro fp h
            exact absurd h (by simp)
          · intro ab h r hr
            simp only [Except.error.injEq] at h
            subst h
            exact Or.inl hr
        | uploadRaises =>
          rw [upload_first_pass_exn_uraise net st row rest h1 h2 hnet]
          constructor
          · intro fp h
            exact absurd h (by simp)
          · intro ab h r hr
            simp only [Except.error.injEq] at h
            subst h
            exact Or.inl hr

/-- Retrying rows whose downloads keep returning non-200 never raises: the
database is unchanged and the trace grows by one download per row. -/
theorem upload_retry_pass_exn_bad (net : UploadRow → NetOutcome)
    (failed : List UploadRow) (db : ReleasesDb) (calls : List NetCall)
    (h : ∀ r ∈ failed, net r = NetOutcome.badStatus) :
    upload_retry_pass_exn net (db, calls) failed =
      Except.ok (db, calls ++ failed.map NetCall.download) := by
  induction failed generalizing db calls with
  | nil => simp [upload_retry_pass_exn]
  | cons row rest ih =>
    have hrow := h row (List.mem_cons_self row rest)
    simp only [upload_retry_pass_exn, upload_extension_to_s3_exn, hrow]
    rw [ih db _ fun r hr => h r (List.mem_cons_of_mem row hr)]
    simp
/-- C6 (amended).  Archival failure handling: (a) when the first pass
completes, every recorded failure is a non-200 download — its flag is not
set, and the run's trace is the first pass followed by exactly one retry
download per failed row, so a twice-failing item is downloaded exactly twice,
never a third time, and the run completes; (b) a raised download or a raised
upload aborts the whole run at that point — the exception propagates, the
retry pass never runs, and no raising release is ever in the failed list
(so it is neither recorded nor retried). -/
theorem upload_failure_policy_with_exceptions (net : UploadRow → NetOutcome)
    (db : ReleasesDb) (rows : List UploadRow) :
    (∀ fp, upload_first_pass_exn net ⟨[], db, [], []⟩ rows = Except.ok fp →
      upload_all_extensions_to_s3_exn net db rows =
          Except.ok (fp.db, fp.calls ++ fp.failed_extensions.map NetCall.download) ∧
        ∀ r ∈ fp.failed_extensions,
          net r = NetOutcome.badStatus ∧
            is_uploaded_to_s3 fp.db r.extension_id r.version = false ∧
            (fp.calls ++ fp.failed_extensions.map NetCall.download).count
              (NetCall.download r) = 2) ∧
      (∀ ab, upload_first_pass_exn net ⟨[], db, [], []⟩ rows = Except.error ab →
        upload_all_extensions_to_s3_exn net db rows = Except.error ab ∧
          ∀ r ∈ ab.failed_extensions, net r = NetOutcome.badStatus) := by
  constructor
  · intro fp hfp
    have hbridge := upload_first_pass_exn_ok_bridge net rows ⟨[], db, [], []⟩ fp hfp
    have hbad : ∀ r ∈ fp.failed_extensions, net r = NetOutcome.badStatus := by
      intro r hr
      rcases (upload_first_pass_exn_failed_chars net rows ⟨[], db, [], []⟩).1 fp hfp r hr
        with habs | hok
      · exact absurd habs (List.not_mem_nil r)
      · exact hok
    constructor
    · show (match upload_first_pass_exn net ⟨[], db, [], []⟩ rows with
        | Except.error ab => Except.error ab
        | Except.ok st => upload_retry_pass_exn net (st.db, st.calls) st.failed_extensions) =
          Except.ok (fp.db, fp.calls ++ fp.failed_extensions.map NetCall.download)
      rw [hfp]
      exact upload_retry_pass_exn_bad net fp.failed_extensions fp.db fp.calls hbad
    · intro r hr
      have hrold : r ∈ (upload_first_pass (fun r => decide (net r = NetOutcome.ok))
          ⟨[], db, [], []⟩ rows).failed_extensions := by
        rw [hbridge]; exact hr
      rcases upload_first_pass_failed_main (fun r => decide (net r = NetOutcome.ok))
          rows ⟨[], db, [], []⟩ r hrold with habs | ⟨-, hnotdb, hc, hf⟩
      · exact absurd habs (List.not_mem_nil r)
      rw [hbridge] at hnotdb hc hf
      refine ⟨hbad r hr, decide_eq_false hnotdb, ?_⟩
      have hc1 : fp.calls.count (NetCall.download r) = 1 := by simpa using hc
      have hc2 : (fp.failed_extensions.map NetCall.download).count (NetCall.download r) =
          fp.failed_extensions.count r :=
        List.count_map_of_injective _ _ (fun a b hab => by injection hab) r
      have hc3 : fp.failed_extensions.count r = 1 := by simpa using hf
      rw [List.count_append, hc1, hc2, hc3]
  · intro ab hab
    constructor
    · show (match upload_first_pass_exn net ⟨[], db, [], []⟩ rows with
        | Except.error ab => Except.error ab
        | Except.ok st => upload_retry_pass_exn net (st.db, st.calls) st.failed_extensions) =
          Except.error ab
      rw [hab]
    · intro r hr
      rcases (upload_first_pass_exn_failed_chars net rows ⟨[], db, [], []⟩).2 ab hab r hr
        with habs | hok
      · exact absurd habs (List.not_mem_nil r)
      · exact hok

/-- C6 (counterexample).  One release whose S3 upload fails after a 200
download (`upload_fileobj` raises): the run aborts with the uncaught
exception instead of completing, the (extension, version) pair is not
recorded in the failed list, the release is downloaded exactly once — never
retried — and its flag is not set. -/
theorem upload_exception_abort_counterexample :
    upload_all_extensions_to_s3_exn (fun _ => NetOutcome.uploadRaises) []
        [UploadRow.mk "e1" "pub" "ext" "1.0"] =
      Except.error
        { db := []
          calls := [NetCall.download (UploadRow.mk "e1" "pub" "ext" "1.0"),
            NetCall.upload (UploadRow.mk "e1" "pub" "ext" "1.0")]
          failed_extensions := [] } ∧
      (upload_all_extensions_to_s3_exn (fun _ => NetOutcome.uploadRaises) []
        [UploadRow.mk "e1" "pub" "ext" "1.0"]).isOk = false ∧
      (UploadRow.mk "e1" "pub" "ext" "1.0") ∉
        (AbortState.mk []
          [NetCall.download (UploadRow.mk "e1" "pub" "ext" "1.0"),
            NetCall.upload (UploadRow.mk "e1" "pub" "ext" "1.0")] []).failed_extensions ∧
      (AbortState.mk []
          [NetCall.download (UploadRow.mk "e1" "pub" "ext" "1.0"),
            NetCall.upload (UploadRow.mk "e1" "pub" "ext" "1.0")] []).calls.count
        (NetCall.download (UploadRow.mk "e1" "pub" "ext" "1.0")) = 1 ∧
      is_uploaded_to_s3
        (AbortState.mk []
          [NetCall.download (UploadRow.mk "e1" "pub" "ext" "1.0"),
            NetCall.upload (UploadRow.mk "e1" "pub" "ext" "1.0")] []).db
        "e1" "1.0" = false := by
  refine ⟨rfl, ?_, ?_, ?_, ?_⟩ <;> decide

/-- Witness for `upload_failure_policy_with_exceptions`: one release failing
with a non-200 download both times — the run completes with the retry
download appended. -/
theorem upload_failure_policy_with_exceptions_witness :
    upload_first_pass_exn (fun _ => NetOutcome.badStatus) ⟨[], [], [], []⟩
        [UploadRow.mk "e1" "pub" "ext" "1.0"] =
      Except.ok
        ⟨["e1"], [], [NetCall.download (UploadRow.mk "e1" "pub" "ext" "1.0")],
          [UploadRow.mk "e1" "pub" "ext" "1.0"]⟩ ∧
      upload_all_extensions_to_s3_exn (fun _ => NetOutcome.badStatus) []
          [UploadRow.mk "e1" "pub" "ext" "1.0"] =
        Except.ok ([], [NetCall.download (UploadRow.mk "e1" "pub" "ext" "1.0"),
          NetCall.download (UploadRow.mk "e1" "pub" "ext" "1.0")]) :=
  ⟨rfl,
    ((upload_failure_policy_with_exceptions (fun _ => NetOutcome.badStatus) []
        [UploadRow.mk "e1" "pub" "ext" "1.0"]).1
      ⟨["e1"], [], [NetCall.download (UploadRow.mk "e1" "pub" "ext" "1.0")],
        [UploadRow.mk "e1" "pub" "ext" "1.0"]⟩ rfl).1⟩
